import Mathlib

/-!
# Verification of the resume-optimiser job lifecycle

A shallow embedding of the job-tracking shell of
`src/crew/resume_optimiser/src/resume_optimiser/api.py`:

* the in-memory job store `job_status : Dict[str, Dict[str, Any]]` is
  modelled as an association list with unique keys (Python `dict`
  semantics: assignment replaces in place or appends, `del` removes);
* each HTTP handler becomes a pure function from its inputs and the
  relevant external state (knowledge directory contents, output
  directory contents, environment variables, outcomes of external
  calls) to the updated store and its response;
* external calls that may raise (`crew().kickoff`, output-file
  collection, `upload_file_to_s3`, Service Bus `send_messages`) are
  modelled by `Except` values injected as parameters: `Except.error e`
  stands for the call raising an exception whose `str()` is `e`;
* the whole service is then wrapped in a transition system (`Sys`,
  `Op`, `step`) over sequences of handler invocations, so that
  store-wide invariants and status-write traces can be stated over
  every reachable state.
-/

namespace ResumeOptimiser

/-- Job status values stored in `job_status[job_id]["status"]`. -/
inductive Status where
  | queued
  | running
  | completed
  | failed
deriving DecidableEq, Repr

/-- The `result` payload written on completion by `run_optimization_task`:
`{"output_files": ..., "s3_uploads": ..., "raw_result": ...}`. -/
structure JobResult where
  output_files : List (String × String)
  s3_uploads : List (String × String)
  raw_result : String
deriving DecidableEq, Repr

/-- One record of the `job_status` dictionary:
`{"status": ..., "progress": ..., "result": ..., "error": ...}`. -/
structure JobRecord where
  status : Status
  progress : Option String
  result : Option JobResult
  error : Option String
deriving DecidableEq, Repr

/-- The in-memory job store `job_status`, as an association list. -/
abbrev JobStore := List (String × JobRecord)

/-- Dictionary access `job_status.get(job_id)` / `job_id in job_status`. -/
def storeLookup : JobStore → String → Option JobRecord
  | [], _ => none
  | (k, v) :: rest, id => if k = id then some v else storeLookup rest id

/-- `job_status[job_id] = record` — Python dict assignment: replace the
existing entry in place, else append. -/
def storeSet : JobStore → String → JobRecord → JobStore
  | [], id, r => [(id, r)]
  | (k, v) :: rest, id, r =>
      if k = id then (id, r) :: rest else (k, v) :: storeSet rest id r

/-- Mutate the record at a key in place (models field assignments like
`job_status[job_id]["status"] = "failed"`, which read and update the
existing dict entry).  On a missing key Python would raise `KeyError`;
every call site below only modifies a key it has just inserted, so the
missing-key branch is unreachable there and modelled as the identity. -/
def storeModify : JobStore → String → (JobRecord → JobRecord) → JobStore
  | [], _, _ => []
  | (k, v) :: rest, id, f =>
      if k = id then (k, f v) :: rest else (k, v) :: storeModify rest id f

/-- `del job_status[job_id]` — removes the entry. -/
def storeErase : JobStore → String → JobStore
  | [], _ => []
  | (k, v) :: rest, id =>
      if k = id then storeErase rest id else (k, v) :: storeErase rest id

theorem storeLookup_storeSet (st : JobStore) (k : String) (v : JobRecord) (id : String) :
    storeLookup (storeSet st k v) id = if k = id then some v else storeLookup st id := by
  induction st with
  | nil => by_cases h : k = id <;> simp [storeSet, storeLookup, h]
  | cons p rest ih =>
      obtain ⟨k', v'⟩ := p
      by_cases hk : k' = k
      · subst hk
        by_cases h : k' = id <;> simp [storeSet, storeLookup, h]
      · by_cases h : k' = id
        · subst h
          have hkid : ¬ k = k' := fun hc => hk hc.symm
          simp [storeSet, storeLookup, hk, hkid]
        · simp [storeSet, storeLookup, hk, h, ih]

theorem storeLookup_storeModify (st : JobStore) (k : String) (f : JobRecord → JobRecord)
    (id : String) :
    storeLookup (storeModify st k f) id =
      if k = id then (storeLookup st k).map f else storeLookup st id := by
  induction st with
  | nil => by_cases h : k = id <;> simp [storeModify, storeLookup, h]
  | cons p rest ih =>
      obtain ⟨k', v'⟩ := p
      by_cases hk : k' = k
      · subst hk
        by_cases h : k' = id <;> simp [storeModify, storeLookup, h]
      · by_cases h : k' = id
        · subst h
          have hkid : ¬ k = k' := fun hc => hk hc.symm
          simp [storeModify, storeLookup, hk, hkid]
        · by_cases h2 : k = id
          · subst h2
            simp [storeModify, storeLookup, hk, h, ih,
              fun hc : k = k' => hk hc.symm]
          · simp [storeModify, storeLookup, hk, h, h2, ih]

theorem storeLookup_storeErase (st : JobStore) (k : String) (id : String) :
    storeLookup (storeErase st k) id = if k = id then none else storeLookup st id := by
  induction st with
  | nil => by_cases h : k = id <;> simp [storeErase, storeLookup, h]
  | cons p rest ih =>
      obtain ⟨k', v'⟩ := p
      by_cases hk : k' = k
      · subst hk
        by_cases h : k' = id
        · subst h
          simpa [storeErase, storeLookup] using ih
        · simpa [storeErase, storeLookup, h] using ih
      · by_cases h : k' = id
        · subst h
          have hkid : ¬ k = k' := fun hc => hk hc.symm
          simp [storeErase, storeLookup, hk, hkid]
        · simp [storeErase, storeLookup, hk, h, ih]

theorem storeLookup_mem (st : JobStore) (id : String) (r : JobRecord)
    (h : storeLookup st id = some r) : (id, r) ∈ st := by
  induction st with
  | nil => simp [storeLookup] at h
  | cons p rest ih =>
      obtain ⟨k, v⟩ := p
      by_cases hk : k = id
      · subst hk
        simp [storeLookup] at h
        subst h
        exact List.mem_cons_self _ _
      · simp [storeLookup, hk] at h
        exact List.mem_cons_of_mem _ (ih h)

/-! ## External state and helpers -/

/-- Generic association-list lookup for filesystem models. -/
def assocLookup {α : Type} : List (String × α) → String → Option α
  | [], _ => none
  | (k, v) :: rest, id => if k = id then some v else assocLookup rest id

/-- Python truthiness of an optional environment/form string: `None` and
`""` are falsy (`if not connection_str`, `if file_id`, `if s3_bucket`). -/
def envTruthy (o : Option String) : Bool :=
  o.getD "" != ""

/-- Index of the last `'.'` in a character list, as in `str.rfind('.')`. -/
def rfindDot : List Char → Option Nat
  | [] => none
  | c :: rest =>
      match rfindDot rest with
      | some i => some (i + 1)
      | none => if c = '.' then some 0 else none

/-- `pathlib.PurePath(name).suffix` on a single path component: the part
from the last dot, empty when the dot is the first or last character. -/
def pathSuffix (name : String) : String :=
  let cs := name.toList
  match rfindDot cs with
  | none => ""
  | some i => if 0 < i ∧ i < cs.length - 1 then String.mk (cs.drop i) else ""

/-- `str.lower()` on ASCII data, written over the character list. -/
def lowerString (s : String) : String :=
  String.mk (s.toList.map Char.toLower)

/-- `file.suffix.lower() in ['.pdf', '.docx', '.txt']` from
`start_optimization`'s resume-file scan. -/
def isResumeSuffix (filename : String) : Bool :=
  [".pdf", ".docx", ".txt"].contains (lowerString (pathSuffix filename))

/-- Contents of the `knowledge/` tree: for each `file_id`, whether the
per-resume directory exists and which filenames it contains (in
`iterdir()` order). -/
abbrev KnowledgeFS := List (String × List String)

/-- Contents of the `output/` tree: for each job id, the filenames
present in `output/run-{job_id}`. -/
abbrev OutputFS := List (String × List String)

/-! ## Response models (`pydantic.BaseModel` classes) -/

/-- `JobStatusResponse`. -/
structure JobStatusResponse where
  job_id : String
  status : String
  progress : Option String
  result : Option JobResult
  error : Option String
deriving DecidableEq, Repr

/-- `CreateJobRequest` for `POST /v1/jobs`: both fields optional. -/
structure CreateJobRequest where
  resume_text : Option String
  job_description : Option String
deriving DecidableEq, Repr

/-- `CreateJobResponse`: the `status` field defaults to `"queued"` and is
never set to anything else by the code. -/
structure CreateJobResponse where
  job_id : String
  status : String := "queued"
deriving DecidableEq, Repr

/-- String form of a status as stored in the (stringly-typed) dict. -/
def statusString : Status → String
  | .queued => "queued"
  | .running => "running"
  | .completed => "completed"
  | .failed => "failed"

/-- The `JobStatusResponse` built from a store record by `get_job_status`
and `list_jobs`. -/
def jobStatusResponseOf (job_id : String) (r : JobRecord) : JobStatusResponse :=
  { job_id := job_id
    status := statusString r.status
    progress := r.progress
    result := r.result
    error := r.error }

/-! ## POST /optimize (`start_optimization`) -/

/-- The record inserted by `start_optimization` before anything else. -/
def startOptimizationQueuedRecord : JobRecord :=
  { status := .queued
    progress := some "Starting optimization..."
    result := none
    error := none }

/-- A `background_tasks.add_task(run_optimization_task, ...)` call:
the runner invocation scheduled to happen after the response. -/
structure ScheduledTask where
  job_id : String
  job_url : String
  company_name : String
  resume_path : Option String
deriving DecidableEq, Repr

/-- The resume-path resolution inside `start_optimization`: when a truthy
`file_id` names an existing knowledge directory, the first entry with a
`.pdf`/`.docx`/`.txt` suffix becomes the resume path; if the directory
exists but has no such entry, `HTTPException(404, "Resume file not
found")` is raised (`Except.error` carries its `str()` form). -/
def resolveResumePath (fs : KnowledgeFS) (file_id : Option String) :
    Except String (Option String) :=
  if envTruthy file_id then
    match assocLookup fs (file_id.getD "") with
    | none => Except.ok none
    | some files =>
        match files.find? (fun f => isResumeSuffix f) with
        | some f => Except.ok (some f)
        | none => Except.error "404: Resume file not found"
  else
    Except.ok none

/-- Outcome of the `start_optimization` handler body: either a
`JobStatusResponse` plus the scheduled background task, or the HTTP 500
produced when the `except Exception` clause catches the in-`try` 404. -/
inductive OptimizeOutcome where
  | ok (resp : JobStatusResponse) (task : ScheduledTask)
  | error500 (detail : String)
deriving DecidableEq, Repr

/-- `POST /optimize` handler body (`start_optimization`): insert a
`queued` record, resolve the resume path, then either schedule
`run_optimization_task` and return `queued`, or — when resolution raises
— re-raise as a 500 while the inserted record stays behind and no task
is scheduled. -/
def start_optimization (fs : KnowledgeFS) (store : JobStore) (job_id : String)
    (job_url : String) (company_name : Option String) (file_id : Option String) :
    JobStore × OptimizeOutcome :=
  let store1 := storeSet store job_id startOptimizationQueuedRecord
  match resolveResumePath fs file_id with
  | Except.error e => (store1, .error500 ("Error starting optimization: " ++ e))
  | Except.ok resume_path =>
      (store1,
        .ok
          { job_id := job_id
            status := "queued"
            progress := some "Starting optimization..."
            result := none
            error := none }
          { job_id := job_id
            job_url := job_url
            company_name := company_name.getD ""
            resume_path := resume_path })

/-- HTTP-level outcome of `POST /optimize`, including FastAPI's 422 when
the required form field `job_url = Form(...)` is missing (the handler
body never runs in that case). -/
inductive OptimizeResponse where
  | validationError
  | error500 (detail : String)
  | okResp (resp : JobStatusResponse)
deriving DecidableEq, Repr

/-- `POST /optimize` including framework-level validation of the
required `job_url` form field. -/
def optimize_endpoint (fs : KnowledgeFS) (store : JobStore) (job_id : String)
    (job_url : Option String) (company_name : Option String) (file_id : Option String) :
    JobStore × OptimizeResponse × Option ScheduledTask :=
  match job_url with
  | none => (store, .validationError, none)
  | some u =>
      match start_optimization fs store job_id u company_name file_id with
      | (st, .ok resp task) => (st, .okResp resp, some task)
      | (st, .error500 d) => (st, .error500 d, none)

/-! ## POST /v1/jobs (`create_job_endpoint`) -/

/-- Environment and message-queue world for `create_job_endpoint`:
the two environment variables, availability of the `azure.servicebus`
import, and the outcome of `sender.send_messages` (an `Except.error e`
stands for it raising an exception with `str(e) = e`). -/
structure QueueEnv where
  connection_str : Option String
  queue_name : Option String
  sbAvailable : Bool
  publish : Except String Unit

/-- Negation of the dev-fallback guard
`if not connection_str or not queue_name or ServiceBusClient is None`. -/
def queueConfigured (env : QueueEnv) : Bool :=
  envTruthy env.connection_str && envTruthy env.queue_name && env.sbAvailable

/-- The record inserted by `create_job_endpoint`
("minimal in-memory status for demo parity"). -/
def createJobQueuedRecord : JobRecord :=
  { status := .queued
    progress := some "Queued"
    result := none
    error := none }

/-- `POST /v1/jobs` handler body (`create_job_endpoint`): insert a
`queued` record; if the Service Bus is not configured, return at once
(dev fallback, no enqueue); otherwise publish, and on a publish
exception set the record's `status` to `failed` and `error` to the
stringified exception.  The `CreateJobResponse` (with its default
`status = "queued"`) is returned on every path; the handler never
schedules an in-process runner.  `payload` only feeds the message body
and never influences validation or the store. -/
def create_job_endpoint (env : QueueEnv) (store : JobStore) (job_id : String)
    (payload : CreateJobRequest) : JobStore × CreateJobResponse :=
  let _ := payload
  let store1 := storeSet store job_id createJobQueuedRecord
  if queueConfigured env then
    match env.publish with
    | Except.ok _ => (store1, { job_id := job_id })
    | Except.error e =>
        (storeModify store1 job_id
          (fun r => { r with status := .failed, error := some e }),
          { job_id := job_id })
  else
    (store1, { job_id := job_id })

/-! ## GET /job/{id}, GET /jobs, DELETE /job/{id}, GET /download -/

/-- `GET /job/{job_id}` (`get_job_status`): 404 "Job not found" for an
unknown id, else the record rendered as a `JobStatusResponse`. -/
def get_job_status (store : JobStore) (job_id : String) :
    Except String JobStatusResponse :=
  match storeLookup store job_id with
  | none => Except.error "Job not found"
  | some r => Except.ok (jobStatusResponseOf job_id r)

/-- `GET /jobs` (`list_jobs`): every record rendered in store order. -/
def list_jobs (store : JobStore) : List JobStatusResponse :=
  store.map (fun p => jobStatusResponseOf p.1 p.2)

/-- `DELETE /job/{job_id}` (`delete_job`): 404 for an unknown id (store
and disk untouched), else remove the entry and best-effort delete the
`output/run-{job_id}` directory.  `outputDirs` is the set of job ids
whose output directory currently exists on disk. -/
def delete_job (store : JobStore) (outputDirs : List String) (job_id : String) :
    JobStore × List String × Except String String :=
  match storeLookup store job_id with
  | none => (store, outputDirs, Except.error "Job not found")
  | some _ =>
      (storeErase store job_id,
        outputDirs.filter (fun d => d != job_id),
        Except.ok "Job deleted successfully")

/-- Outcome of `GET /download/{job_id}/{filename}` (`download_result`). -/
inductive DownloadOutcome where
  | jobNotFound
  | notCompleted
  | fileNotFound
  | fileResponse (path : String) (filename : String)
deriving DecidableEq, Repr

/-- `GET /download/{job_id}/{filename}` (`download_result`): 404 for an
unknown job; 400 "Job not completed yet" whenever the stored status is
not `completed` (checked before any filesystem access); then 404 "File
not found" unless the file exists under `output/run-{job_id}`, in which
case its contents are served as a `FileResponse`. -/
def download_result (store : JobStore) (outFS : OutputFS)
    (job_id : String) (filename : String) : DownloadOutcome :=
  match storeLookup store job_id with
  | none => .jobNotFound
  | some r =>
      if r.status ≠ .completed then .notCompleted
      else
        let files := (assocLookup outFS job_id).getD []
        if files.contains filename then
          .fileResponse ("output/run-" ++ job_id ++ "/" ++ filename) filename
        else .fileNotFound

/-! ## The background runner (`run_optimization_task`) -/

/-- External world of one `run_optimization_task` execution:

* `kickoff`: outcome of `ResumeCrew()` setup plus
  `crew().kickoff(...)` — `ok` carries `str(result)`, `error` a raised
  exception's `str()`;
* `collect`: outcome of scanning `output/run-{job_id}` — the
  `{filename: path}` mapping, or a raised exception;
* `s3Bucket`: the `S3_BUCKET_NAME` environment variable;
* `s3Upload`: per-file outcome of `upload_file_to_s3(filename, path)` —
  `ok` carries the returned URL, `error` a raised exception. -/
structure RunnerWorld where
  kickoff : Except String String
  collect : Except String (List (String × String))
  s3Bucket : Option String
  s3Upload : String → String → Except String String

/-- The per-file upload loop: a failing upload is logged and skipped
(`except Exception ... print(...)`), a succeeding one records
`s3_uploads[filename] = url`. -/
def uploadLoop (up : String → String → Except String String) :
    List (String × String) → List (String × String)
  | [] => []
  | (filename, path) :: rest =>
      match up filename path with
      | Except.ok url => (filename, url) :: uploadLoop up rest
      | Except.error _ => uploadLoop up rest

/-- The record a `run_optimization_task` execution leaves at `job_id`,
given the record found there at entry.  Mirrors the handler's `try`
block: set `running`, run the crew, collect output files, upload when a
bucket is configured, then write the `completed` result — with the
`except Exception` clause turning any crew/collection failure into a
terminal `failed` record carrying the stringified exception. -/
def runnerFinalRecord (w : RunnerWorld) (rec : JobRecord) : JobRecord :=
  let recRunning :=
    { rec with status := .running, progress := some "Initializing CrewAI agents..." }
  match w.kickoff with
  | Except.error e =>
      { recRunning with
        status := .failed
        error := some e
        progress := some ("Optimization failed: " ++ e) }
  | Except.ok result =>
      match w.collect with
      | Except.error e =>
          { recRunning with
            status := .failed
            error := some e
            progress := some ("Optimization failed: " ++ e) }
      | Except.ok output_files =>
          let s3_uploads :=
            if envTruthy w.s3Bucket then uploadLoop w.s3Upload output_files else []
          { recRunning with
            status := .completed
            progress := some "Optimization completed successfully"
            result := some
              { output_files := output_files
                s3_uploads := s3_uploads
                raw_result := result } }

/-- `run_optimization_task` as a store transformer.  When the job id has
been deleted before the task runs, the very first write
(`job_status[job_id]["status"] = "running"`) raises `KeyError`, the
`except` clause raises `KeyError` again, and the store is left
unchanged (the background task dies without touching any record or any
HTTP caller). -/
def run_optimization_task (w : RunnerWorld) (store : JobStore) (job_id : String) :
    JobStore :=
  match storeLookup store job_id with
  | none => store
  | some rec => storeSet store job_id (runnerFinalRecord w rec)

/-! ## The service as a transition system

One process lifetime of the API: the store, the background tasks
scheduled but not yet executed, and the set of job ids ever handed out
(`uuid.uuid4()` never repeats, so creation ops with a non-fresh id are
modelled as no-ops).  `run_optimization_task` is an `async def` that
never awaits (the crew call is synchronous), so within the single
cooperatively-scheduled event loop each handler and each background
task runs atomically — one `Op` per atomic unit. -/

structure Sys where
  store : JobStore
  pending : List ScheduledTask
  used : List String

/-- The empty state at process start (the store has no persistence). -/
def initSys : Sys := { store := [], pending := [], used := [] }

/-- One atomic operation of the Request Surface or Job Runner, carrying
the external inputs it depends on. -/
inductive Op where
  | opOptimize (fs : KnowledgeFS) (job_id : String) (job_url : Option String)
      (company_name : Option String) (file_id : Option String)
  | opCreateJob (env : QueueEnv) (job_id : String) (payload : CreateJobRequest)
  | opRunTask (t : ScheduledTask) (w : RunnerWorld)
  | opGetJob (job_id : String)
  | opListJobs
  | opDeleteJob (job_id : String) (outputDirs : List String)
  | opDownload (job_id : String) (filename : String) (outFS : OutputFS)

/-- Effect of one operation on the system state.  Read-only endpoints
leave the state unchanged; `opRunTask` only fires for a task that is
actually pending and consumes it. -/
def step (s : Sys) : Op → Sys
  | .opOptimize fs job_id job_url company_name file_id =>
      match job_url with
      | none => s
      | some u =>
          if job_id ∈ s.used then s
          else
            match start_optimization fs s.store job_id u company_name file_id with
            | (st, .ok _ task) =>
                { store := st, pending := s.pending ++ [task], used := job_id :: s.used }
            | (st, .error500 _) =>
                { store := st, pending := s.pending, used := job_id :: s.used }
  | .opCreateJob env job_id payload =>
      if job_id ∈ s.used then s
      else
        { s with
          store := (create_job_endpoint env s.store job_id payload).1
          used := job_id :: s.used }
  | .opRunTask t w =>
      if t ∈ s.pending then
        { s with
          store := run_optimization_task w s.store t.job_id
          pending := s.pending.erase t }
      else s
  | .opGetJob _ => s
  | .opListJobs => s
  | .opDeleteJob job_id outputDirs => { s with store := (delete_job s.store outputDirs job_id).1 }
  | .opDownload _ _ _ => s

/-- Run a sequence of operations from a state. -/
def runOps (s : Sys) : List Op → Sys
  | [] => s
  | op :: ops => runOps (step s op) ops

/-- The sequence of values an operation assigns to
`job_status[id]["status"]`, in program order.  Transcribed from the
assignment statements of `api.py`:

* `start_optimization` / `create_job_endpoint` insert a fresh record
  with status `queued`;
* `create_job_endpoint`'s publish-exception path then assigns `failed`;
* `run_optimization_task` assigns `running` first and exactly one
  terminal status last (nothing, if the record was deleted: the first
  assignment raises `KeyError`). -/
def opStatusWrites (s : Sys) (op : Op) (id : String) : List Status :=
  match op with
  | .opOptimize _ job_id job_url _ _ =>
      match job_url with
      | none => []
      | some _ =>
          if job_id ∈ s.used then []
          else if id = job_id then [.queued] else []
  | .opCreateJob env job_id _ =>
      if job_id ∈ s.used then []
      else if id = job_id then
        [.queued] ++
          (if queueConfigured env then
            match env.publish with
            | Except.error _ => [.failed]
            | Except.ok _ => []
          else [])
      else []
  | .opRunTask t w =>
      if t ∈ s.pending ∧ id = t.job_id then
        match storeLookup s.store t.job_id with
        | none => []
        | some r => [.running, (runnerFinalRecord w r).status]
      else []
  | _ => []

/-- All statuses written to job `id` while running `ops` from `s`. -/
def traceWrites (s : Sys) : List Op → String → List Status
  | [], _ => []
  | op :: ops, id => opStatusWrites s op id ++ traceWrites (step s op) ops id

/-- Position of a status along the lifecycle chain
`queued → running → {completed, failed}`. -/
def rank : Status → Nat
  | .queued => 0
  | .running => 1
  | .completed => 2
  | .failed => 2

/-- Strictly-forward movement along the lifecycle chain. -/
def StrictlyForward (a b : Status) : Prop := rank a < rank b

instance decStrictlyForward (a b : Status) : Decidable (StrictlyForward a b) :=
  inferInstanceAs (Decidable (rank a < rank b))

/-! ## Invariants -/

/-- The record-level invariant of the spec's data model: `result` is
populated exactly on `completed`, `error` exactly on `failed`. -/
def RecordInv (r : JobRecord) : Prop :=
  (r.result.isSome ↔ r.status = .completed) ∧ (r.error.isSome ↔ r.status = .failed)

/-- System invariant: every stored id was handed out; every pending
task's id was handed out; a pending task's record (if still stored) is
`queued`; pending tasks have pairwise-distinct ids; every stored record
satisfies `RecordInv`. -/
def SysInv (s : Sys) : Prop :=
  (∀ id r, storeLookup s.store id = some r → id ∈ s.used) ∧
  (∀ t, t ∈ s.pending → t.job_id ∈ s.used) ∧
  (∀ t r, t ∈ s.pending → storeLookup s.store t.job_id = some r → r.status = .queued) ∧
  s.pending.Pairwise (fun a b => a.job_id ≠ b.job_id) ∧
  (∀ id r, storeLookup s.store id = some r → RecordInv r)

theorem recordInv_startQueued : RecordInv startOptimizationQueuedRecord := by
  constructor <;> simp [startOptimizationQueuedRecord]

theorem recordInv_createQueued : RecordInv createJobQueuedRecord := by
  constructor <;> simp [createJobQueuedRecord]

theorem recordInv_markFailed (r : JobRecord) (e : String) (hres : r.result = none) :
    RecordInv { r with status := .failed, error := some e } := by
  constructor <;> simp [hres]

/-- The runner always leaves a terminal status. -/
theorem runnerFinal_terminal (w : RunnerWorld) (rec : JobRecord) :
    (runnerFinalRecord w rec).status = .completed ∨
      (runnerFinalRecord w rec).status = .failed := by
  unfold runnerFinalRecord
  cases w.kickoff with
  | error e => simp
  | ok res =>
      cases w.collect with
      | error e => simp
      | ok files => simp

theorem rank_runnerFinal (w : RunnerWorld) (rec : JobRecord) :
    rank (runnerFinalRecord w rec).status = 2 := by
  rcases runnerFinal_terminal w rec with h | h <;> rw [h] <;> rfl

/-- Starting from a `queued` record satisfying `RecordInv`, the record
the runner leaves behind satisfies `RecordInv` again. -/
theorem recordInv_runnerFinal (w : RunnerWorld) (rec : JobRecord)
    (hq : rec.status = .queued) (hinv : RecordInv rec) :
    RecordInv (runnerFinalRecord w rec) := by
  obtain ⟨hres, herr⟩ := hinv
  have hresNone : rec.result = none := by
    cases hr : rec.result with
    | none => rfl
    | some v => rw [hr] at hres; simp [hq] at hres
  have herrNone : rec.error = none := by
    cases hr : rec.error with
    | none => rfl
    | some v => rw [hr] at herr; simp [hq] at herr
  unfold runnerFinalRecord
  cases w.kickoff with
  | error e => constructor <;> simp [hresNone]
  | ok res =>
      cases w.collect with
      | error e => constructor <;> simp [hresNone]
      | ok files => constructor <;> simp [herrNone]

/-- In a pending list with pairwise-distinct job ids, every task left
after erasing `t` has a job id different from `t`'s. -/
theorem jobId_ne_of_mem_erase {l : List ScheduledTask} {t t' : ScheduledTask}
    (hp : l.Pairwise (fun a b => a.job_id ≠ b.job_id))
    (ht : t ∈ l) (ht' : t' ∈ l.erase t) : t'.job_id ≠ t.job_id := by
  induction l with
  | nil => cases ht
  | cons a rest ih =>
      rw [List.pairwise_cons] at hp
      by_cases ha : a = t
      · subst ha
        rw [List.erase_cons_head] at ht'
        exact fun hc => hp.1 t' ht' hc.symm
      · have htr : t ∈ rest := by
          rw [List.mem_cons] at ht
          rcases ht with h | h
          · exact absurd h.symm ha
          · exact h
        have hb : ¬ (a == t) = true := by simp [ha]
        rw [List.erase_cons_tail hb, List.mem_cons] at ht'
        rcases ht' with h | h
        · subst h
          exact hp.1 t htr
        · exact ih hp.2 htr h

/-- Inserting a fresh `queued` record (optionally together with one
newly scheduled task for the same id) preserves the invariant.  Covers
both creation endpoints' success paths and `/optimize`'s 500 path. -/
theorem sysInv_insert (s : Sys) (h : SysInv s) (job_id : String) (rec : JobRecord)
    (hfresh : job_id ∉ s.used) (hrec : RecordInv rec) (hq : rec.status = .queued)
    (tasks : List ScheduledTask)
    (htasks : tasks = [] ∨ ∃ t, tasks = [t] ∧ t.job_id = job_id) :
    SysInv { store := storeSet s.store job_id rec,
             pending := s.pending ++ tasks, used := job_id :: s.used } := by
  obtain ⟨h1, h2, h3, h4, h5⟩ := h
  refine ⟨?_, ?_, ?_, ?_, ?_⟩
  · intro id r hl
    rw [storeLookup_storeSet] at hl
    by_cases hid : job_id = id
    · exact List.mem_cons.mpr (Or.inl hid.symm)
    · rw [if_neg hid] at hl
      exact List.mem_cons_of_mem _ (h1 id r hl)
  · intro t ht
    rw [List.mem_append] at ht
    rcases ht with ht | ht
    · exact List.mem_cons_of_mem _ (h2 t ht)
    · rcases htasks with rfl | ⟨t', rfl, hid⟩
      · cases ht
      · rw [List.mem_singleton] at ht
        subst ht
        exact List.mem_cons.mpr (Or.inl hid)
  · intro t r ht hl
    rw [storeLookup_storeSet] at hl
    rw [List.mem_append] at ht
    rcases ht with ht | ht
    · by_cases hid : job_id = t.job_id
      · exact absurd (hid ▸ h2 t ht) hfresh
      · rw [if_neg hid] at hl
        exact h3 t r ht hl
    · rcases htasks with rfl | ⟨t', rfl, hid⟩
      · cases ht
      · rw [List.mem_singleton] at ht
        subst ht
        rw [if_pos hid.symm] at hl
        cases hl
        exact hq
  · rw [List.pairwise_append]
    refine ⟨h4, ?_, ?_⟩
    · rcases htasks with rfl | ⟨t', rfl, _⟩
      · exact List.Pairwise.nil
      · exact List.pairwise_singleton _ _
    · intro a ha b hb
      rcases htasks with rfl | ⟨t', rfl, hid⟩
      · cases hb
      · rw [List.mem_singleton] at hb
        subst hb
        rw [hid]
        exact fun hc => hfresh (hc ▸ h2 a ha)
  · intro id r hl
    rw [storeLookup_storeSet] at hl
    by_cases hid : job_id = id
    · rw [if_pos hid] at hl
      cases hl
      exact hrec
    · rw [if_neg hid] at hl
      exact h5 id r hl

/-- The `/v1/jobs` publish-exception path — insert `queued`, then flip
the same fresh record to `failed` — preserves the invariant. -/
theorem sysInv_insertFailed (s : Sys) (h : SysInv s) (job_id : String) (e : String)
    (hfresh : job_id ∉ s.used) :
    SysInv { store := storeModify (storeSet s.store job_id createJobQueuedRecord) job_id
               (fun r => { r with status := .failed, error := some e }),
             pending := s.pending, used := job_id :: s.used } := by
  obtain ⟨h1, h2, h3, h4, h5⟩ := h
  have hlook : ∀ id, storeLookup (storeModify (storeSet s.store job_id createJobQueuedRecord)
      job_id (fun r => { r with status := .failed, error := some e })) id =
      if job_id = id
      then some { createJobQueuedRecord with status := .failed, error := some e }
      else storeLookup s.store id := by
    intro id
    rw [storeLookup_storeModify, storeLookup_storeSet, storeLookup_storeSet]
    by_cases hid : job_id = id <;> simp [hid]
  refine ⟨?_, ?_, ?_, ?_, ?_⟩
  · intro id r hl
    rw [hlook] at hl
    by_cases hid : job_id = id
    · exact List.mem_cons.mpr (Or.inl hid.symm)
    · rw [if_neg hid] at hl
      exact List.mem_cons_of_mem _ (h1 id r hl)
  · intro t ht
    exact List.mem_cons_of_mem _ (h2 t ht)
  · intro t r ht hl
    rw [hlook] at hl
    by_cases hid : job_id = t.job_id
    · exact absurd (hid ▸ h2 t ht) hfresh
    · rw [if_neg hid] at hl
      exact h3 t r ht hl
  · exact h4
  · intro id r hl
    rw [hlook] at hl
    by_cases hid : job_id = id
    · rw [if_pos hid] at hl
      cases hl
      exact recordInv_markFailed _ e rfl
    · rw [if_neg hid] at hl
      exact h5 id r hl

/-- Executing a pending background task preserves the invariant. -/
theorem sysInv_runTask (s : Sys) (h : SysInv s) (t : ScheduledTask) (w : RunnerWorld)
    (ht : t ∈ s.pending) :
    SysInv { s with store := run_optimization_task w s.store t.job_id,
                    pending := s.pending.erase t } := by
  obtain ⟨h1, h2, h3, h4, h5⟩ := h
  unfold run_optimization_task
  cases hlook : storeLookup s.store t.job_id with
  | none =>
      refine ⟨h1, ?_, ?_, ?_, h5⟩
      · exact fun t' ht' => h2 t' (List.mem_of_mem_erase ht')
      · exact fun t' r ht' hl => h3 t' r (List.mem_of_mem_erase ht') hl
      · exact List.Pairwise.sublist (List.erase_sublist t s.pending) h4
  | some rec =>
      have hq : rec.status = .queued := h3 t rec ht hlook
      have hri : RecordInv rec := h5 t.job_id rec hlook
      refine ⟨?_, ?_, ?_, ?_, ?_⟩
      · intro id r hl
        rw [storeLookup_storeSet] at hl
        by_cases hid : t.job_id = id
        · exact hid ▸ h2 t ht
        · rw [if_neg hid] at hl
          exact h1 id r hl
      · exact fun t' ht' => h2 t' (List.mem_of_mem_erase ht')
      · intro t' r ht' hl
        have hne := jobId_ne_of_mem_erase h4 ht ht'
        rw [storeLookup_storeSet] at hl
        rw [if_neg (fun hc => hne hc.symm)] at hl
        exact h3 t' r (List.mem_of_mem_erase ht') hl
      · exact List.Pairwise.sublist (List.erase_sublist t s.pending) h4
      · intro id r hl
        rw [storeLookup_storeSet] at hl
        by_cases hid : t.job_id = id
        · rw [if_pos hid] at hl
          cases hl
          exact recordInv_runnerFinal w rec hq hri
        · rw [if_neg hid] at hl
          exact h5 id r hl

/-- Deleting a job preserves the invariant. -/
theorem sysInv_delete (s : Sys) (h : SysInv s) (job_id : String) (dirs : List String) :
    SysInv { s with store := (delete_job s.store dirs job_id).1 } := by
  obtain ⟨h1, h2, h3, h4, h5⟩ := h
  unfold delete_job
  cases hlook : storeLookup s.store job_id with
  | none => exact ⟨h1, h2, h3, h4, h5⟩
  | some rec =>
      refine ⟨?_, h2, ?_, h4, ?_⟩
      · intro id r hl
        rw [storeLookup_storeErase] at hl
        by_cases hid : job_id = id
        · rw [if_pos hid] at hl
          cases hl
        · rw [if_neg hid] at hl
          exact h1 id r hl
      · intro t r ht hl
        rw [storeLookup_storeErase] at hl
        by_cases hid : job_id = t.job_id
        · rw [if_pos hid] at hl
          cases hl
        · rw [if_neg hid] at hl
          exact h3 t r ht hl
      · intro id r hl
        rw [storeLookup_storeErase] at hl
        by_cases hid : job_id = id
        · rw [if_pos hid] at hl
          cases hl
        · rw [if_neg hid] at hl
          exact h5 id r hl

theorem sysInv_init : SysInv initSys := by
  refine ⟨?_, ?_, ?_, ?_, ?_⟩ <;> simp [initSys, storeLookup]

/-- Every operation preserves the system invariant. -/
theorem sysInv_step (s : Sys) (op : Op) (h : SysInv s) : SysInv (step s op) := by
  cases op with
  | opOptimize fs job_id job_url company_name file_id =>
      cases job_url with
      | none => simpa [step] using h
      | some u =>
          by_cases hused : job_id ∈ s.used
          · simpa [step, hused] using h
          · cases hres : resolveResumePath fs file_id with
            | error e =>
                have := sysInv_insert s h job_id startOptimizationQueuedRecord hused
                  recordInv_startQueued rfl [] (Or.inl rfl)
                simpa [step, hused, start_optimization, hres] using this
            | ok rp =>
                have := sysInv_insert s h job_id startOptimizationQueuedRecord hused
                  recordInv_startQueued rfl
                  [{ job_id := job_id, job_url := u,
                     company_name := company_name.getD "", resume_path := rp }]
                  (Or.inr ⟨_, rfl, rfl⟩)
                simpa [step, hused, start_optimization, hres] using this
  | opCreateJob env job_id payload =>
      by_cases hused : job_id ∈ s.used
      · simpa [step, hused] using h
      · by_cases hcfg : queueConfigured env
        · cases hpub : env.publish with
          | ok u =>
              have := sysInv_insert s h job_id createJobQueuedRecord hused
                recordInv_createQueued rfl [] (Or.inl rfl)
              simpa [step, hused, create_job_endpoint, hcfg, hpub] using this
          | error e =>
              have := sysInv_insertFailed s h job_id e hused
              simpa [step, hused, create_job_endpoint, hcfg, hpub] using this
        · have := sysInv_insert s h job_id createJobQueuedRecord hused
            recordInv_createQueued rfl [] (Or.inl rfl)
          simpa [step, hused, create_job_endpoint, hcfg] using this
  | opRunTask t w =>
      by_cases hp : t ∈ s.pending
      · have := sysInv_runTask s h t w hp
        simpa [step, hp] using this
      · simpa [step, hp] using h
  | opGetJob job_id => simpa [step] using h
  | opListJobs => simpa [step] using h
  | opDeleteJob job_id outputDirs =>
      have := sysInv_delete s h job_id outputDirs
      simpa [step] using this
  | opDownload job_id filename outFS => simpa [step] using h

/-- The invariant holds in every reachable state. -/
theorem sysInv_runOps (s : Sys) (ops : List Op) (h : SysInv s) : SysInv (runOps s ops) := by
  induction ops generalizing s with
  | nil => simpa [runOps] using h
  | cons op ops ih => exact ih (step s op) (sysInv_step s op h)

/-! ## The status-write trace is monotone -/

/-- Main trace lemma, strengthened for the induction: from any state
satisfying `SysInv`,
(1) the statuses written to any job id form a strictly-forward chain;
(2) an id already handed out with no pending task is never written again;
(3) if the id was already handed out, the first future write (if any)
    is `running` (only its pending runner can still write it). -/
theorem traceWrites_future (ops : List Op) :
    ∀ (s : Sys) (id : String), SysInv s →
    List.Chain' StrictlyForward (traceWrites s ops id)
    ∧ (id ∈ s.used → (∀ t ∈ s.pending, t.job_id ≠ id) → traceWrites s ops id = [])
    ∧ (id ∈ s.used → ∀ st, (traceWrites s ops id).head? = some st →
        st = Status.running) := by
  induction ops with
  | nil =>
      intro s id _
      refine ⟨?_, ?_, ?_⟩ <;> simp [traceWrites]
  | cons op ops ih =>
      intro s id h
      cases op with
      | opOptimize fs job_id job_url company_name file_id =>
          cases job_url with
          | none =>
              have hs : step s (Op.opOptimize fs job_id none company_name file_id) = s := by
                simp [step]
              have hw : opStatusWrites s
                  (Op.opOptimize fs job_id none company_name file_id) id = [] := by
                simp [opStatusWrites]
              obtain ⟨ih1, ih2, ih3⟩ := ih s id h
              refine ⟨?_, ?_, ?_⟩ <;>
                simp only [traceWrites, hw, hs, List.nil_append]
              · exact ih1
              · exact ih2
              · exact ih3
          | some u =>
              by_cases hused : job_id ∈ s.used
              · have hs : step s (Op.opOptimize fs job_id (some u) company_name file_id)
                    = s := by simp [step, hused]
                have hw : opStatusWrites s
                    (Op.opOptimize fs job_id (some u) company_name file_id) id = [] := by
                  simp [opStatusWrites, hused]
                obtain ⟨ih1, ih2, ih3⟩ := ih s id h
                refine ⟨?_, ?_, ?_⟩ <;>
                  simp only [traceWrites, hw, hs, List.nil_append]
                · exact ih1
                · exact ih2
                · exact ih3
              · have hinv' := sysInv_step s
                  (Op.opOptimize fs job_id (some u) company_name file_id) h
                cases hres : resolveResumePath fs file_id with
                | ok rp =>
                    have hs : step s (Op.opOptimize fs job_id (some u) company_name file_id)
                        = { store := storeSet s.store job_id startOptimizationQueuedRecord,
                            pending := s.pending ++
                              [{ job_id := job_id, job_url := u,
                                 company_name := company_name.getD "",
                                 resume_path := rp }],
                            used := job_id :: s.used } := by
                      simp [step, hused, start_optimization, hres]
                    rw [hs] at hinv'
                    obtain ⟨ih1, ih2, ih3⟩ := ih _ id hinv'
                    by_cases hid : id = job_id
                    · have hw : opStatusWrites s
                          (Op.opOptimize fs job_id (some u) company_name file_id) id
                          = [Status.queued] := by
                        simp [opStatusWrites, hused, hid]
                      refine ⟨?_, ?_, ?_⟩
                      · simp only [traceWrites, hw, hs]
                        rw [List.chain'_append]
                        refine ⟨List.chain'_singleton _, ih1, ?_⟩
                        intro x hx y hy
                        simp only [List.getLast?_singleton, Option.mem_some_iff] at hx
                        have hy' := ih3 (List.mem_cons.mpr (Or.inl hid)) y hy
                        rw [← hx, hy']
                        decide
                      · intro hmem _
                        exact absurd (hid ▸ hmem) hused
                      · intro hmem
                        exact absurd (hid ▸ hmem) hused
                    · have hw : opStatusWrites s
                          (Op.opOptimize fs job_id (some u) company_name file_id) id
                          = [] := by
                        simp [opStatusWrites, hused, hid]
                      refine ⟨?_, ?_, ?_⟩ <;>
                        simp only [traceWrites, hw, hs, List.nil_append]
                      · exact ih1
                      · intro hmem hnp
                        refine ih2 (List.mem_cons_of_mem _ hmem) ?_
                        intro t ht
                        rw [List.mem_append] at ht
                        rcases ht with ht | ht
                        · exact hnp t ht
                        · rw [List.mem_singleton] at ht
                          subst ht
                          exact fun hc => hid (hc.symm)
                      · intro hmem st hst
                        exact ih3 (List.mem_cons_of_mem _ hmem) st hst
                | error e =>
                    have hs : step s (Op.opOptimize fs job_id (some u) company_name file_id)
                        = { store := storeSet s.store job_id startOptimizationQueuedRecord,
                            pending := s.pending,
                            used := job_id :: s.used } := by
                      simp [step, hused, start_optimization, hres]
                    rw [hs] at hinv'
                    obtain ⟨ih1, ih2, ih3⟩ := ih _ id hinv'
                    by_cases hid : id = job_id
                    · have hw : opStatusWrites s
                          (Op.opOptimize fs job_id (some u) company_name file_id) id
                          = [Status.queued] := by
                        simp [opStatusWrites, hused, hid]
                      refine ⟨?_, ?_, ?_⟩
                      · simp only [traceWrites, hw, hs]
                        rw [List.chain'_append]
                        refine ⟨List.chain'_singleton _, ih1, ?_⟩
                        intro x hx y hy
                        simp only [List.getLast?_singleton, Option.mem_some_iff] at hx
                        have hy' := ih3 (List.mem_cons.mpr (Or.inl hid)) y hy
                        rw [← hx, hy']
                        decide
                      · intro hmem _
                        exact absurd (hid ▸ hmem) hused
                      · intro hmem
                        exact absurd (hid ▸ hmem) hused
                    · have hw : opStatusWrites s
                          (Op.opOptimize fs job_id (some u) company_name file_id) id
                          = [] := by
                        simp [opStatusWrites, hused, hid]
                      refine ⟨?_, ?_, ?_⟩ <;>
                        simp only [traceWrites, hw, hs, List.nil_append]
                      · exact ih1
                      · intro hmem hnp
                        exact ih2 (List.mem_cons_of_mem _ hmem) hnp
                      · intro hmem st hst
                        exact ih3 (List.mem_cons_of_mem _ hmem) st hst
      | opCreateJob env job_id payload =>
          by_cases hused : job_id ∈ s.used
          · have hs : step s (Op.opCreateJob env job_id payload) = s := by
              simp [step, hused]
            have hw : opStatusWrites s (Op.opCreateJob env job_id payload) id = [] := by
              simp [opStatusWrites, hused]
            obtain ⟨ih1, ih2, ih3⟩ := ih s id h
            refine ⟨?_, ?_, ?_⟩ <;>
              simp only [traceWrites, hw, hs, List.nil_append]
            · exact ih1
            · exact ih2
            · exact ih3
          · have hinv' := sysInv_step s (Op.opCreateJob env job_id payload) h
            have hs : step s (Op.opCreateJob env job_id payload)
                = { store := (create_job_endpoint env s.store job_id payload).1,
                    pending := s.pending,
                    used := job_id :: s.used } := by
              simp [step, hused]
            rw [hs] at hinv'
            obtain ⟨ih1, ih2, ih3⟩ := ih _ id hinv'
            by_cases hid : id = job_id
            · -- the only writer of a fresh id created here is this very op
              have hT : traceWrites
                  { store := (create_job_endpoint env s.store job_id payload).1,
                    pending := s.pending,
                    used := job_id :: s.used } ops id = [] := by
                refine ih2 (List.mem_cons.mpr (Or.inl hid)) ?_
                intro t ht
                exact fun hc => hused (hid ▸ hc ▸ h.2.1 t ht)
              have hwq : opStatusWrites s (Op.opCreateJob env job_id payload) id
                  = [Status.queued] ++
                    (if queueConfigured env then
                      match env.publish with
                      | Except.error _ => [Status.failed]
                      | Except.ok _ => []
                    else []) := by
                simp [opStatusWrites, hused, hid]
              refine ⟨?_, ?_, ?_⟩
              · simp only [traceWrites, hwq, hs, hT, List.append_nil]
                by_cases hcfg : queueConfigured env
                · cases hpub : env.publish with
                  | ok v => simp [hcfg, hpub]
                  | error e =>
                      simp only [hcfg, hpub, if_pos, List.singleton_append]
                      rw [List.chain'_pair]
                      decide
                · simp [hcfg]
              · intro hmem _
                exact absurd (hid ▸ hmem) hused
              · intro hmem
                exact absurd (hid ▸ hmem) hused
            · have hw : opStatusWrites s (Op.opCreateJob env job_id payload) id = [] := by
                simp [opStatusWrites, hused, hid]
              refine ⟨?_, ?_, ?_⟩ <;>
                simp only [traceWrites, hw, hs, List.nil_append]
              · exact ih1
              · intro hmem hnp
                exact ih2 (List.mem_cons_of_mem _ hmem) hnp
              · intro hmem st hst
                exact ih3 (List.mem_cons_of_mem _ hmem) st hst
      | opRunTask t w =>
          by_cases hp : t ∈ s.pending
          · have hs : step s (Op.opRunTask t w)
                = { s with store := run_optimization_task w s.store t.job_id,
                           pending := s.pending.erase t } := by
              simp [step, hp]
            have hinv' := sysInv_step s (Op.opRunTask t w) h
            rw [hs] at hinv'
            obtain ⟨ih1, ih2, ih3⟩ := ih _ id hinv'
            by_cases hid : id = t.job_id
            · have hidused : id ∈ s.used := hid ▸ h.2.1 t hp
              have hT : traceWrites
                  { s with store := run_optimization_task w s.store t.job_id,
                           pending := s.pending.erase t } ops id = [] := by
                refine ih2 hidused ?_
                intro t' ht'
                exact fun hc => (jobId_ne_of_mem_erase h.2.2.2.1 hp ht') (hc.trans hid)
              cases hlook : storeLookup s.store t.job_id with
              | none =>
                  have hw : opStatusWrites s (Op.opRunTask t w) id = [] := by
                    simp [opStatusWrites, hp, hid, hlook]
                  refine ⟨?_, ?_, ?_⟩ <;>
                    simp only [traceWrites, hw, hs, List.nil_append]
                  · exact ih1
                  · intro _ hnp
                    exact absurd hid (hnp t hp ∘ Eq.symm)
                  · intro _ st hst
                    exact ih3 hidused st hst
              | some rec =>
                  have hw : opStatusWrites s (Op.opRunTask t w) id
                      = [Status.running, (runnerFinalRecord w rec).status] := by
                    simp [opStatusWrites, hp, hid, hlook]
                  refine ⟨?_, ?_, ?_⟩
                  · simp only [traceWrites, hw, hs, hT, List.append_nil]
                    rw [List.chain'_pair]
                    show rank Status.running < rank (runnerFinalRecord w rec).status
                    rw [rank_runnerFinal]
                    decide
                  · intro _ hnp
                    exact absurd hid (hnp t hp ∘ Eq.symm)
                  · intro _ st hst
                    simp only [traceWrites, hw, hs, hT, List.append_nil,
                      List.head?_cons, Option.some.injEq] at hst
                    exact hst.symm
            · have hw : opStatusWrites s (Op.opRunTask t w) id = [] := by
                simp [opStatusWrites, hid]
              refine ⟨?_, ?_, ?_⟩ <;>
                simp only [traceWrites, hw, hs, List.nil_append]
              · exact ih1
              · intro hmem hnp
                refine ih2 hmem ?_
                intro t' ht'
                exact hnp t' (List.mem_of_mem_erase ht')
              · intro hmem st hst
                exact ih3 hmem st hst
          · have hs : step s (Op.opRunTask t w) = s := by simp [step, hp]
            have hw : opStatusWrites s (Op.opRunTask t w) id = [] := by
              simp [opStatusWrites, hp]
            obtain ⟨ih1, ih2, ih3⟩ := ih s id h
            refine ⟨?_, ?_, ?_⟩ <;>
              simp only [traceWrites, hw, hs, List.nil_append]
            · exact ih1
            · exact ih2
            · exact ih3
      | opGetJob job_id =>
          have hs : step s (Op.opGetJob job_id) = s := by simp [step]
          have hw : opStatusWrites s (Op.opGetJob job_id) id = [] := by
            simp [opStatusWrites]
          obtain ⟨ih1, ih2, ih3⟩ := ih s id h
          refine ⟨?_, ?_, ?_⟩ <;>
            simp only [traceWrites, hw, hs, List.nil_append]
          · exact ih1
          · exact ih2
          · exact ih3
      | opListJobs =>
          have hs : step s Op.opListJobs = s := by simp [step]
          have hw : opStatusWrites s Op.opListJobs id = [] := by
            simp [opStatusWrites]
          obtain ⟨ih1, ih2, ih3⟩ := ih s id h
          refine ⟨?_, ?_, ?_⟩ <;>
            simp only [traceWrites, hw, hs, List.nil_append]
          · exact ih1
          · exact ih2
          · exact ih3
      | opDeleteJob job_id outputDirs =>
          have hs : step s (Op.opDeleteJob job_id outputDirs)
              = { s with store := (delete_job s.store outputDirs job_id).1 } := by
            simp [step]
          have hw : opStatusWrites s (Op.opDeleteJob job_id outputDirs) id = [] := by
            simp [opStatusWrites]
          have hinv' := sysInv_step s (Op.opDeleteJob job_id outputDirs) h
          rw [hs] at hinv'
          obtain ⟨ih1, ih2, ih3⟩ := ih _ id hinv'
          refine ⟨?_, ?_, ?_⟩ <;>
            simp only [traceWrites, hw, hs, List.nil_append]
          · exact ih1
          · exact ih2
          · exact ih3
      | opDownload job_id filename outFS =>
          have hs : step s (Op.opDownload job_id filename outFS) = s := by simp [step]
          have hw : opStatusWrites s (Op.opDownload job_id filename outFS) id = [] := by
            simp [opStatusWrites]
          obtain ⟨ih1, ih2, ih3⟩ := ih s id h
          refine ⟨?_, ?_, ?_⟩ <;>
            simp only [traceWrites, hw, hs, List.nil_append]
          · exact ih1
          · exact ih2
          · exact ih3

/-! ## Shared helper lemmas for the claim theorems -/

theorem mem_storeSet_self (st : JobStore) (id : String) (r : JobRecord) :
    (id, r) ∈ storeSet st id r := by
  induction st with
  | nil => simp [storeSet]
  | cons p rest ih =>
      obtain ⟨k, v⟩ := p
      by_cases hk : k = id <;> simp [storeSet, hk, ih]

theorem mem_storeErase (st : JobStore) (id : String) (p : String × JobRecord)
    (hp : p ∈ storeErase st id) : p.1 ≠ id ∧ p ∈ st := by
  induction st with
  | nil => simp [storeErase] at hp
  | cons q rest ih =>
      obtain ⟨k, v⟩ := q
      by_cases hk : k = id
      · rw [storeErase, if_pos hk] at hp
        obtain ⟨h1, h2⟩ := ih hp
        exact ⟨h1, List.mem_cons_of_mem _ h2⟩
      · rw [storeErase, if_neg hk, List.mem_cons] at hp
        rcases hp with hp | hp
        · subst hp
          exact ⟨hk, List.mem_cons_self _ _⟩
        · obtain ⟨h1, h2⟩ := ih hp
          exact ⟨h1, List.mem_cons_of_mem _ h2⟩

/-- A filename appears in the upload map exactly when its upload call
succeeded on some collected path. -/
theorem uploadLoop_mem (up : String → String → Except String String)
    (files : List (String × String)) (n : String) :
    (∃ u, (n, u) ∈ uploadLoop up files)
      ↔ (∃ p u, (n, p) ∈ files ∧ up n p = Except.ok u) := by
  induction files with
  | nil => simp [uploadLoop]
  | cons fp rest ih =>
      obtain ⟨fn, p⟩ := fp
      cases hup : up fn p with
      | ok url =>
          rw [uploadLoop, hup]
          constructor
          · rintro ⟨u, hu⟩
            rw [List.mem_cons, Prod.mk.injEq] at hu
            rcases hu with ⟨hn, hu⟩ | hu
            · subst hn
              exact ⟨p, url, List.mem_cons_self _ _, hup⟩
            · obtain ⟨p', u', hmem, hok⟩ := ih.mp ⟨u, hu⟩
              exact ⟨p', u', List.mem_cons_of_mem _ hmem, hok⟩
          · rintro ⟨p', u', hmem, hok⟩
            rw [List.mem_cons, Prod.mk.injEq] at hmem
            rcases hmem with ⟨hn, hp⟩ | hmem
            · subst hn
              exact ⟨url, List.mem_cons_self _ _⟩
            · obtain ⟨u, hu⟩ := ih.mpr ⟨p', u', hmem, hok⟩
              exact ⟨u, List.mem_cons_of_mem _ hu⟩
      | error err =>
          rw [uploadLoop, hup]
          constructor
          · rintro ⟨u, hu⟩
            obtain ⟨p', u', hmem, hok⟩ := ih.mp ⟨u, hu⟩
            exact ⟨p', u', List.mem_cons_of_mem _ hmem, hok⟩
          · rintro ⟨p', u', hmem, hok⟩
            rw [List.mem_cons, Prod.mk.injEq] at hmem
            rcases hmem with ⟨hn, hp⟩ | hmem
            · subst hn
              subst hp
              rw [hup] at hok
              cases hok
            · exact ih.mpr ⟨p', u', hmem, hok⟩

/-- Every status has rank at most 2 on the lifecycle chain. -/
theorem rank_le_two (st : Status) : rank st ≤ 2 := by
  cases st <;> decide

/-! ## Claim theorems -/

/-- C1: in every state reachable by any sequence of Request Surface and
Job Runner operations (create via `/optimize`, create via `/v1/jobs`,
runner success and failure branches, reads, deletes), every record of
the Job Store has `result` populated exactly when `status = completed`
and `error` populated exactly when `status = failed`; in particular at
most one of the two is populated, and only in a terminal status. -/
theorem job_store_result_error_invariant (ops : List Op) (id : String) (r : JobRecord)
    (h : storeLookup (runOps initSys ops).store id = some r) :
    (r.result.isSome ↔ r.status = Status.completed)
    ∧ (r.error.isSome ↔ r.status = Status.failed)
    ∧ ¬ (r.result.isSome ∧ r.error.isSome) := by
  have hinv := sysInv_runOps initSys ops sysInv_init
  have hri := hinv.2.2.2.2 id r h
  refine ⟨hri.1, hri.2, ?_⟩
  rintro ⟨hres, herr⟩
  rw [hri.1] at hres
  rw [hri.2] at herr
  rw [hres] at herr
  cases herr

/-- C1 witness: a concrete run (one `/v1/jobs` creation) and its stored
record, with the invariant evaluated on it. -/
theorem job_store_result_error_invariant_witness :
    storeLookup (runOps initSys
        [Op.opCreateJob ⟨none, none, false, Except.ok ()⟩ "j" ⟨none, none⟩]).store "j"
      = some createJobQueuedRecord
    ∧ ((createJobQueuedRecord.result.isSome ↔ createJobQueuedRecord.status = Status.completed)
      ∧ (createJobQueuedRecord.error.isSome ↔ createJobQueuedRecord.status = Status.failed)
      ∧ ¬ (createJobQueuedRecord.result.isSome ∧ createJobQueuedRecord.error.isSome)) :=
  ⟨by decide, job_store_result_error_invariant
    [Op.opCreateJob ⟨none, none, false, Except.ok ()⟩ "j" ⟨none, none⟩] "j"
    createJobQueuedRecord (by decide)⟩

/-- C2: over any sequence of operations of the service, the statuses
written to any single job id form a strictly-forward chain along
`queued → running → {completed, failed}` (this includes the `/v1/jobs`
enqueue-failure path, which writes `queued` then `failed`); moreover no
write ever follows a terminal (`completed`/`failed`) write, so a
terminal status is never changed. -/
theorem status_writes_monotone (ops : List Op) (id : String) :
    List.Chain' StrictlyForward (traceWrites initSys ops id)
    ∧ ∀ pre a suf, traceWrites initSys ops id = pre ++ a :: suf →
        (a = Status.completed ∨ a = Status.failed) → suf = [] := by
  have hchain := (traceWrites_future ops initSys id sysInv_init).1
  refine ⟨hchain, ?_⟩
  intro pre a suf heq hterm
  rw [heq] at hchain
  have htail : List.Chain' StrictlyForward (a :: suf) :=
    (List.chain'_append.mp hchain).2.1
  cases suf with
  | nil => rfl
  | cons b rest =>
      rw [List.chain'_cons] at htail
      have hr : rank a < rank b := htail.1
      have ha : rank a = 2 := by rcases hterm with h | h <;> rw [h] <;> rfl
      have hb := rank_le_two b
      omega

/-- C2 witness: the concrete trace of a `/v1/jobs` creation whose
enqueue fails — writes `queued` then `failed` — is a strictly-forward
chain, and nothing follows the terminal write. -/
theorem status_writes_monotone_witness :
    List.Chain' StrictlyForward [Status.queued, Status.failed]
    ∧ ([] : List Status) = [] := by
  have h := status_writes_monotone
    [Op.opCreateJob ⟨some "conn", some "q", true, Except.error "boom"⟩ "j" ⟨none, none⟩] "j"
  have ht : traceWrites initSys
      [Op.opCreateJob ⟨some "conn", some "q", true, Except.error "boom"⟩ "j" ⟨none, none⟩] "j"
      = [Status.queued, Status.failed] := by decide
  exact ⟨ht ▸ h.1,
    h.2 [Status.queued] Status.failed [] (by rw [ht]; rfl) (Or.inr rfl)⟩

/-- C3 counterexample: a `POST /v1/jobs` creation request carrying
neither a job reference nor a resume (`{}` — both payload fields
absent) is *not* rejected: it creates a job record (store grows to one
entry, holding the `queued` record) and the response is a success
reporting `queued`, contradicting "rejected with a validation error and
creates no job record". -/
theorem create_job_accepts_empty_payload :
    ((create_job_endpoint ⟨none, none, false, Except.ok ()⟩ [] "job-1"
        { resume_text := none, job_description := none }).1).length = 1
    ∧ storeLookup (create_job_endpoint ⟨none, none, false, Except.ok ()⟩ [] "job-1"
        { resume_text := none, job_description := none }).1 "job-1"
      = some createJobQueuedRecord
    ∧ (create_job_endpoint ⟨none, none, false, Except.ok ()⟩ [] "job-1"
        { resume_text := none, job_description := none }).2
      = { job_id := "job-1", status := "queued" } := by
  refine ⟨?_, ?_, ?_⟩ <;> decide

/-- C3 amended: `POST /optimize` validates only that the job reference
(`job_url`, a required form field) is present — a request without it is
rejected by request validation and creates no record, schedules
nothing; when it is present and the handler succeeds, the response is
`queued` and a runner for that job id is scheduled fire-and-forget.
`POST /v1/jobs` performs no presence validation at all: any payload,
including one with neither resume text nor job description, is
accepted, creates a record, and returns `queued` (and never schedules
an in-process runner). -/
theorem creation_validation_amended :
    (∀ fs store job_id company_name file_id,
      optimize_endpoint fs store job_id none company_name file_id
        = (store, OptimizeResponse.validationError, none))
    ∧ (∀ fs store job_id u company_name file_id st resp task,
        optimize_endpoint fs store job_id (some u) company_name file_id
          = (st, OptimizeResponse.okResp resp, task) →
        resp.status = "queued" ∧ ∃ t, task = some t ∧ t.job_id = job_id)
    ∧ (∀ env store job_id,
        ((create_job_endpoint env store job_id
            { resume_text := none, job_description := none }).2).status = "queued"
        ∧ (storeLookup (create_job_endpoint env store job_id
            { resume_text := none, job_description := none }).1 job_id).isSome = true) := by
  refine ⟨?_, ?_, ?_⟩
  · intro fs store job_id company_name file_id
    rfl
  · intro fs store job_id u company_name file_id st resp task heq
    unfold optimize_endpoint start_optimization at heq
    cases hres : resolveResumePath fs file_id with
    | error e =>
        rw [hres] at heq
        simp at heq
    | ok rp =>
        rw [hres] at heq
        simp only [Prod.mk.injEq, OptimizeResponse.okResp.injEq] at heq
        obtain ⟨-, hresp, htask⟩ := heq
        refine ⟨?_, ?_⟩
        · rw [← hresp]
        · exact ⟨_, htask.symm, rfl⟩
  · intro env store job_id
    constructor
    · unfold create_job_endpoint
      by_cases hcfg : queueConfigured env
      · cases hpub : env.publish with
        | ok v => simp [hcfg, hpub]
        | error e => simp [hcfg, hpub]
      · simp [hcfg]
    · unfold create_job_endpoint
      by_cases hcfg : queueConfigured env
      · cases hpub : env.publish with
        | ok v => simp [hcfg, hpub, storeLookup_storeSet]
        | error e => simp [hcfg, hpub, storeLookup_storeModify, storeLookup_storeSet]
      · simp [hcfg, storeLookup_storeSet]

/-- C3 amended witness: the three parts at concrete inputs — a missing
`job_url` rejected with nothing created; a successful `/optimize` with
`job_url = "u"` scheduling a runner for its id; and `/v1/jobs` with the
empty payload returning `queued` and creating a record. -/
theorem creation_validation_amended_witness :
    optimize_endpoint [] [] "j1" none none none
      = ([], OptimizeResponse.validationError, none)
    ∧ ({ job_id := "j1", status := "queued", progress := some "Starting optimization...",
         result := none, error := none : JobStatusResponse }.status = "queued"
      ∧ ∃ t, (some { job_id := "j1", job_url := "u", company_name := "",
                     resume_path := none : ScheduledTask } : Option ScheduledTask)
              = some t ∧ t.job_id = "j1")
    ∧ (((create_job_endpoint ⟨none, none, false, Except.ok ()⟩ [] "j2"
          { resume_text := none, job_description := none }).2).status = "queued"
      ∧ (storeLookup (create_job_endpoint ⟨none, none, false, Except.ok ()⟩ [] "j2"
          { resume_text := none, job_description := none }).1 "j2").isSome = true) :=
  ⟨creation_validation_amended.1 [] [] "j1" none none,
   creation_validation_amended.2.1 [] [] "j1" "u" none none
     [("j1", startOptimizationQueuedRecord)]
     { job_id := "j1", status := "queued", progress := some "Starting optimization...",
       result := none, error := none }
     (some { job_id := "j1", job_url := "u", company_name := "", resume_path := none })
     (by decide),
   creation_validation_amended.2.2 ⟨none, none, false, Except.ok ()⟩ [] "j2"⟩

/-- C4: whenever the optimization call (`crew().kickoff` and the setup
around it) or the artifact collection raises, the runner leaves the
job's record with `status = failed`, `error` the stringified exception,
and `progress` reporting the failure (the `result` field is untouched).
The `except` clause swallows the exception: `run_optimization_task` is
total — it returns the updated store and nothing propagates to any HTTP
caller (the triggering request has already returned). -/
theorem runner_failure_sets_failed (w : RunnerWorld) (store : JobStore)
    (job_id : String) (rec : JobRecord) (e : String)
    (hrec : storeLookup store job_id = some rec)
    (hfail : w.kickoff = Except.error e
      ∨ ∃ res, w.kickoff = Except.ok res ∧ w.collect = Except.error e) :
    storeLookup (run_optimization_task w store job_id) job_id
      = some { rec with
               status := Status.failed
               error := some e
               progress := some ("Optimization failed: " ++ e) } := by
  unfold run_optimization_task
  rw [hrec, storeLookup_storeSet, if_pos rfl]
  rcases hfail with hk | ⟨res, hk, hc⟩
  · simp [runnerFinalRecord, hk]
  · simp [runnerFinalRecord, hk, hc]

/-- C4 witness: a runner whose kickoff raises `"boom"` on a queued
record ends with the failed record. -/
theorem runner_failure_sets_failed_witness :
    storeLookup (run_optimization_task
        ⟨Except.error "boom", Except.ok [], none, fun _ _ => Except.error "x"⟩
        [("j", startOptimizationQueuedRecord)] "j") "j"
      = some { startOptimizationQueuedRecord with
               status := Status.failed
               error := some "boom"
               progress := some ("Optimization failed: " ++ "boom") } :=
  runner_failure_sets_failed
    ⟨Except.error "boom", Except.ok [], none, fun _ _ => Except.error "x"⟩
    [("j", startOptimizationQueuedRecord)] "j" startOptimizationQueuedRecord "boom"
    (by decide) (Or.inl rfl)

/-- C5: when the optimization call succeeds, artifact collection
succeeds, and object storage is configured, the job reaches
`status = completed` regardless of upload failures; the `s3_uploads`
map of `result` contains exactly the filenames whose upload call
succeeded (failing files are skipped, not aborting the job). -/
theorem runner_partial_upload_completes (w : RunnerWorld) (store : JobStore)
    (job_id : String) (rec : JobRecord) (res : String) (files : List (String × String))
    (hrec : storeLookup store job_id = some rec)
    (hk : w.kickoff = Except.ok res)
    (hc : w.collect = Except.ok files)
    (hb : envTruthy w.s3Bucket = true) :
    ∃ r, storeLookup (run_optimization_task w store job_id) job_id = some r
      ∧ r.status = Status.completed
      ∧ r.result = some { output_files := files,
                          s3_uploads := uploadLoop w.s3Upload files,
                          raw_result := res }
      ∧ ∀ n, (∃ u, (n, u) ∈ uploadLoop w.s3Upload files)
          ↔ ∃ p u, (n, p) ∈ files ∧ w.s3Upload n p = Except.ok u := by
  refine ⟨runnerFinalRecord w rec, ?_, ?_, ?_, fun n => uploadLoop_mem w.s3Upload files n⟩
  · unfold run_optimization_task
    rw [hrec, storeLookup_storeSet, if_pos rfl]
  · simp [runnerFinalRecord, hk, hc]
  · simp [runnerFinalRecord, hk, hc, hb]

/-- C5 witness: two collected files, the upload of `"a.md"` succeeding
and the upload of `"b.md"` raising — the job completes and the upload
map characterization holds. -/
theorem runner_partial_upload_completes_witness :
    ∃ r, storeLookup (run_optimization_task
        ⟨Except.ok "done", Except.ok [("a.md", "pa"), ("b.md", "pb")], some "bucket",
          fun n _ => if n = "a.md" then Except.ok "url-a" else Except.error "denied"⟩
        [("j", startOptimizationQueuedRecord)] "j") "j" = some r
      ∧ r.status = Status.completed
      ∧ r.result = some { output_files := [("a.md", "pa"), ("b.md", "pb")],
                          s3_uploads := uploadLoop
                            (fun n _ => if n = "a.md" then Except.ok "url-a"
                              else Except.error "denied")
                            [("a.md", "pa"), ("b.md", "pb")],
                          raw_result := "done" }
      ∧ ∀ n, (∃ u, (n, u) ∈ uploadLoop
              (fun n _ => if n = "a.md" then Except.ok "url-a" else Except.error "denied")
              [("a.md", "pa"), ("b.md", "pb")])
          ↔ ∃ p u, (n, p) ∈ [("a.md", "pa"), ("b.md", "pb")]
              ∧ (if n = "a.md" then Except.ok "url-a"
                  else (Except.error "denied" : Except String String)) = Except.ok u :=
  runner_partial_upload_completes
    ⟨Except.ok "done", Except.ok [("a.md", "pa"), ("b.md", "pb")], some "bucket",
      fun n _ => if n = "a.md" then Except.ok "url-a" else Except.error "denied"⟩
    [("j", startOptimizationQueuedRecord)] "j" startOptimizationQueuedRecord
    "done" [("a.md", "pa"), ("b.md", "pb")] (by decide) rfl rfl (by decide)

/-- C6: for a known job id, `GET /download/{id}/{filename}` is rejected
with `NotReady` (HTTP 400 "Job not completed yet") whenever the stored
status is not `completed` — regardless of the on-disk state `outFS`;
with status `completed` it yields `NotFound` (404) when the filename is
not present under `output/run-{id}`, and serves the file's bytes when
it is. -/
theorem download_gating (store : JobStore) (outFS : OutputFS) (job_id filename : String)
    (r : JobRecord) (hr : storeLookup store job_id = some r) :
    (r.status ≠ Status.completed →
      download_result store outFS job_id filename = DownloadOutcome.notCompleted)
    ∧ (r.status = Status.completed →
        ((assocLookup outFS job_id).getD []).contains filename = false →
        download_result store outFS job_id filename = DownloadOutcome.fileNotFound)
    ∧ (r.status = Status.completed →
        ((assocLookup outFS job_id).getD []).contains filename = true →
        download_result store outFS job_id filename
          = DownloadOutcome.fileResponse
              ("output/run-" ++ job_id ++ "/" ++ filename) filename) := by
  refine ⟨?_, ?_, ?_⟩
  · intro h
    simp only [download_result, hr]
    rw [if_pos h]
  · intro h hnc
    simp only [download_result, hr]
    rw [if_neg (fun hcc => hcc h)]
    have hmem : filename ∉ (assocLookup outFS job_id).getD [] := by simpa using hnc
    simp [hmem]
  · intro h hcc
    simp only [download_result, hr]
    rw [if_neg (fun hcc2 => hcc2 h)]
    have hmem : filename ∈ (assocLookup outFS job_id).getD [] := by simpa using hcc
    simp [hmem]

/-- C6 witness: a `running` job rejects the download even though the
file exists on disk; a `completed` job serves an existing file and 404s
a missing one. -/
theorem download_gating_witness :
    download_result [("j", startOptimizationQueuedRecord)] [("j", ["cv.md"])] "j" "cv.md"
      = DownloadOutcome.notCompleted
    ∧ download_result
        [("k", { status := Status.completed, progress := none,
                 result := some { output_files := [], s3_uploads := [], raw_result := "" },
                 error := none })] [("k", ["cv.md"])] "k" "nope.md"
      = DownloadOutcome.fileNotFound
    ∧ download_result
        [("k", { status := Status.completed, progress := none,
                 result := some { output_files := [], s3_uploads := [], raw_result := "" },
                 error := none })] [("k", ["cv.md"])] "k" "cv.md"
      = DownloadOutcome.fileResponse ("output/run-" ++ "k" ++ "/" ++ "cv.md") "cv.md" :=
  ⟨(download_gating [("j", startOptimizationQueuedRecord)] [("j", ["cv.md"])] "j" "cv.md"
      startOptimizationQueuedRecord (by decide)).1 (by decide),
   (download_gating
      [("k", { status := Status.completed, progress := none,
               result := some { output_files := [], s3_uploads := [], raw_result := "" },
               error := none })] [("k", ["cv.md"])] "k" "nope.md"
      { status := Status.completed, progress := none,
        result := some { output_files := [], s3_uploads := [], raw_result := "" },
        error := none } (by decide)).2.1 rfl (by decide),
   (download_gating
      [("k", { status := Status.completed, progress := none,
               result := some { output_files := [], s3_uploads := [], raw_result := "" },
               error := none })] [("k", ["cv.md"])] "k" "cv.md"
      { status := Status.completed, progress := none,
        result := some { output_files := [], s3_uploads := [], raw_result := "" },
        error := none } (by decide)).2.2 rfl (by decide)⟩

/-- C7: `DELETE /job/{id}` on an unknown id yields `NotFound` (404) and
leaves both the store and the disk untouched; on a known id it removes
the record — so the id no longer resolves and no `GET /jobs` entry
carries it — and best-effort removes the job's `output/run-{id}`
directory. -/
theorem delete_job_spec (store : JobStore) (outputDirs : List String) (job_id : String) :
    (storeLookup store job_id = none →
      delete_job store outputDirs job_id
        = (store, outputDirs, Except.error "Job not found"))
    ∧ (∀ r, storeLookup store job_id = some r →
        storeLookup (delete_job store outputDirs job_id).1 job_id = none
        ∧ (∀ resp ∈ list_jobs (delete_job store outputDirs job_id).1, resp.job_id ≠ job_id)
        ∧ job_id ∉ (delete_job store outputDirs job_id).2.1
        ∧ (delete_job store outputDirs job_id).2.2
            = Except.ok "Job deleted successfully") := by
  constructor
  · intro h
    unfold delete_job
    rw [h]
  · intro r h
    unfold delete_job
    rw [h]
    refine ⟨?_, ?_, ?_, rfl⟩
    · rw [storeLookup_storeErase, if_pos rfl]
    · intro resp hresp
      unfold list_jobs at hresp
      rw [List.mem_map] at hresp
      obtain ⟨p, hp, hresp⟩ := hresp
      have := (mem_storeErase store job_id p hp).1
      rw [← hresp]
      exact this
    · intro hmem
      rw [List.mem_filter] at hmem
      simp at hmem

/-- C7 witness: deleting an unknown id from a one-job store is a 404
no-op; deleting the known id removes record and directory. -/
theorem delete_job_spec_witness :
    delete_job [("j", createJobQueuedRecord)] ["j"] "ghost"
      = ([("j", createJobQueuedRecord)], ["j"], Except.error "Job not found")
    ∧ (storeLookup (delete_job [("j", createJobQueuedRecord)] ["j"] "j").1 "j" = none
      ∧ (∀ resp ∈ list_jobs (delete_job [("j", createJobQueuedRecord)] ["j"] "j").1,
          resp.job_id ≠ "j")
      ∧ "j" ∉ (delete_job [("j", createJobQueuedRecord)] ["j"] "j").2.1
      ∧ (delete_job [("j", createJobQueuedRecord)] ["j"] "j").2.2
          = Except.ok "Job deleted successfully") :=
  ⟨(delete_job_spec [("j", createJobQueuedRecord)] ["j"] "ghost").1 (by decide),
   (delete_job_spec [("j", createJobQueuedRecord)] ["j"] "j").2
     createJobQueuedRecord (by decide)⟩

/-- C8: every successful creation inserts a record whose initial status
is `queued` with `result` and `error` both absent, and the HTTP
response reports `queued`.  For `/optimize` (success = an `okResp`
outcome) the final store still holds exactly that record; for
`/v1/jobs` the response always reports `queued`, the inserted record is
`createJobQueuedRecord` (queued, no result, no error), and whenever the
enqueue does not fail the store still holds it unchanged. -/
theorem created_job_initially_queued :
    (∀ fs store job_id u company_name file_id st resp task,
      optimize_endpoint fs store job_id (some u) company_name file_id
        = (st, OptimizeResponse.okResp resp, task) →
      storeLookup st job_id = some startOptimizationQueuedRecord
      ∧ startOptimizationQueuedRecord.status = Status.queued
      ∧ startOptimizationQueuedRecord.result = none
      ∧ startOptimizationQueuedRecord.error = none
      ∧ resp.status = "queued")
    ∧ (∀ env store job_id payload,
        (create_job_endpoint env store job_id payload).2
          = { job_id := job_id, status := "queued" }
        ∧ createJobQueuedRecord.status = Status.queued
        ∧ createJobQueuedRecord.result = none
        ∧ createJobQueuedRecord.error = none
        ∧ (queueConfigured env = false ∨ env.publish = Except.ok () →
            storeLookup (create_job_endpoint env store job_id payload).1 job_id
              = some createJobQueuedRecord)) := by
  constructor
  · intro fs store job_id u company_name file_id st resp task heq
    unfold optimize_endpoint start_optimization at heq
    cases hres : resolveResumePath fs file_id with
    | error e =>
        rw [hres] at heq
        simp at heq
    | ok rp =>
        rw [hres] at heq
        simp only [Prod.mk.injEq, OptimizeResponse.okResp.injEq] at heq
        obtain ⟨hst, hresp, -⟩ := heq
        refine ⟨?_, rfl, rfl, rfl, ?_⟩
        · rw [← hst, storeLookup_storeSet, if_pos rfl]
        · rw [← hresp]
  · intro env store job_id payload
    refine ⟨?_, rfl, rfl, rfl, ?_⟩
    · unfold create_job_endpoint
      by_cases hcfg : queueConfigured env
      · cases hpub : env.publish with
        | ok v => simp [hcfg, hpub]
        | error e => simp [hcfg, hpub]
      · simp [hcfg]
    · intro hok
      unfold create_job_endpoint
      rcases hok with hcfg | hpub
      · simp [hcfg, storeLookup_storeSet]
      · by_cases hcfg : queueConfigured env
        · simp [hcfg, hpub, storeLookup_storeSet]
        · simp [hcfg, storeLookup_storeSet]

/-- C8 witness: the two creation paths at concrete inputs. -/
theorem created_job_initially_queued_witness :
    (storeLookup [("j1", startOptimizationQueuedRecord)] "j1"
        = some startOptimizationQueuedRecord
      ∧ startOptimizationQueuedRecord.status = Status.queued
      ∧ startOptimizationQueuedRecord.result = none
      ∧ startOptimizationQueuedRecord.error = none
      ∧ ({ job_id := "j1", status := "queued",
           progress := some "Starting optimization...",
           result := none, error := none : JobStatusResponse }).status = "queued")
    ∧ ((create_job_endpoint ⟨none, none, false, Except.ok ()⟩ [] "j2" ⟨none, none⟩).2
        = { job_id := "j2", status := "queued" }
      ∧ createJobQueuedRecord.status = Status.queued
      ∧ createJobQueuedRecord.result = none
      ∧ createJobQueuedRecord.error = none
      ∧ (queueConfigured ⟨none, none, false, Except.ok ()⟩ = false
          ∨ (⟨none, none, false, Except.ok ()⟩ : QueueEnv).publish = Except.ok () →
          storeLookup (create_job_endpoint ⟨none, none, false, Except.ok ()⟩ [] "j2"
              ⟨none, none⟩).1 "j2"
            = some createJobQueuedRecord)) :=
  ⟨created_job_initially_queued.1 [] [] "j1" "u" none none
     [("j1", startOptimizationQueuedRecord)]
     { job_id := "j1", status := "queued", progress := some "Starting optimization...",
       result := none, error := none }
     (some { job_id := "j1", job_url := "u", company_name := "", resume_path := none })
     (by decide),
   created_job_initially_queued.2 ⟨none, none, false, Except.ok ()⟩ [] "j2" ⟨none, none⟩⟩

/-- C9: when the Service Bus is configured and the publish raises, the
`POST /v1/jobs` response still reports success with body status
`"queued"`, while the Job Store record for the same id simultaneously
holds `status = failed` with `error` the stringified exception — so a
subsequent `GET /job/{id}` reports `"failed"`, disagreeing with the
creation response. -/
theorem enqueue_failure_divergence (env : QueueEnv) (store : JobStore) (job_id : String)
    (payload : CreateJobRequest) (e : String)
    (hcfg : queueConfigured env = true) (hpub : env.publish = Except.error e) :
    (create_job_endpoint env store job_id payload).2
        = { job_id := job_id, status := "queued" }
    ∧ storeLookup (create_job_endpoint env store job_id payload).1 job_id
        = some { status := Status.failed, progress := some "Queued",
                 result := none, error := some e }
    ∧ get_job_status (create_job_endpoint env store job_id payload).1 job_id
        = Except.ok { job_id := job_id, status := "failed", progress := some "Queued",
                      result := none, error := some e }
    ∧ statusString Status.failed ≠ "queued" := by
  have hlook : storeLookup (create_job_endpoint env store job_id payload).1 job_id
      = some { status := Status.failed, progress := some "Queued",
               result := none, error := some e } := by
    unfold create_job_endpoint
    simp [hcfg, hpub, storeLookup_storeModify, storeLookup_storeSet, createJobQueuedRecord]
  refine ⟨?_, hlook, ?_, by decide⟩
  · unfold create_job_endpoint
    simp [hcfg, hpub]
  · unfold get_job_status
    rw [hlook]
    rfl

/-- C9 witness: concrete configured environment whose publish raises
`"bus down"`. -/
theorem enqueue_failure_divergence_witness :
    (create_job_endpoint ⟨some "conn", some "q", true, Except.error "bus down"⟩ [] "j"
        ⟨some "resume", none⟩).2 = { job_id := "j", status := "queued" }
    ∧ storeLookup (create_job_endpoint
        ⟨some "conn", some "q", true, Except.error "bus down"⟩ [] "j"
        ⟨some "resume", none⟩).1 "j"
      = some { status := Status.failed, progress := some "Queued",
               result := none, error := some "bus down" }
    ∧ get_job_status (create_job_endpoint
        ⟨some "conn", some "q", true, Except.error "bus down"⟩ [] "j"
        ⟨some "resume", none⟩).1 "j"
      = Except.ok { job_id := "j", status := "failed", progress := some "Queued",
                    result := none, error := some "bus down" }
    ∧ statusString Status.failed ≠ "queued" :=
  enqueue_failure_divergence ⟨some "conn", some "q", true, Except.error "bus down"⟩ []
    "j" ⟨some "resume", none⟩ "bus down" (by decide) rfl

/-- C10: `POST /optimize` is not atomic on error — for a truthy
`file_id` whose knowledge directory exists but contains no
`.pdf`/`.docx`/`.txt` file, the in-`try` `HTTPException(404)` is caught
by the blanket `except Exception` and re-raised as a 500, yet the
`queued` record inserted beforehand stays in the store and shows up in
`GET /jobs`, while no runner is ever scheduled for it. -/
theorem optimize_orphan_on_resolution_failure (fs : KnowledgeFS) (store : JobStore)
    (job_id u : String) (company_name : Option String) (fid : String)
    (files : List String)
    (hfid : fid ≠ "")
    (hdir : assocLookup fs fid = some files)
    (hnores : files.find? (fun f => isResumeSuffix f) = none) :
    optimize_endpoint fs store job_id (some u) company_name (some fid)
      = (storeSet store job_id startOptimizationQueuedRecord,
         OptimizeResponse.error500
           ("Error starting optimization: " ++ "404: Resume file not found"),
         none)
    ∧ storeLookup (storeSet store job_id startOptimizationQueuedRecord) job_id
        = some startOptimizationQueuedRecord
    ∧ jobStatusResponseOf job_id startOptimizationQueuedRecord
        ∈ list_jobs (storeSet store job_id startOptimizationQueuedRecord)
    ∧ startOptimizationQueuedRecord.status = Status.queued := by
  have henv : envTruthy (some fid) = true := by
    simp [envTruthy, hfid]
  have hres : resolveResumePath fs (some fid)
      = Except.error "404: Resume file not found" := by
    unfold resolveResumePath
    rw [if_pos henv]
    simp only [Option.getD_some, hdir, hnores]
  refine ⟨?_, ?_, ?_, rfl⟩
  · unfold optimize_endpoint start_optimization
    rw [hres]
  · rw [storeLookup_storeSet, if_pos rfl]
  · unfold list_jobs
    rw [List.mem_map]
    exact ⟨(job_id, startOptimizationQueuedRecord),
      mem_storeSet_self store job_id startOptimizationQueuedRecord, rfl⟩

/-- C10 witness: knowledge directory `"abc"` containing only
`resume.exe` (no resume-typed suffix). -/
theorem optimize_orphan_on_resolution_failure_witness :
    optimize_endpoint [("abc", ["resume.exe"])] [] "j" (some "u") none (some "abc")
      = (storeSet [] "j" startOptimizationQueuedRecord,
         OptimizeResponse.error500
           ("Error starting optimization: " ++ "404: Resume file not found"),
         none)
    ∧ storeLookup (storeSet [] "j" startOptimizationQueuedRecord) "j"
        = some startOptimizationQueuedRecord
    ∧ jobStatusResponseOf "j" startOptimizationQueuedRecord
        ∈ list_jobs (storeSet [] "j" startOptimizationQueuedRecord)
    ∧ startOptimizationQueuedRecord.status = Status.queued :=
  optimize_orphan_on_resolution_failure [("abc", ["resume.exe"])] [] "j" "u" none "abc"
    ["resume.exe"] (by decide) (by decide) (by decide)

end ResumeOptimiser
